import Mathlib

/-
Verification development for the HWCPipe measurement core:
src/measurement.h (struct Measurement and its nested Value) and
src/pmu_counter.cpp (class PMUCounter).

Modelling conventions.
C++ `double` is embedded as `DoubleVal`: an exact rational together with the
IEEE-754 special values +Inf, -Inf and NaN.  Finite arithmetic is exact real
arithmetic on rationals (the model ignores rounding of finite results); the
special values follow the IEEE-754 rules for the operations the code uses.
C++ `long long int` is embedded as `Int` (the model ignores the 64-bit wrap,
which none of the studied code exercises within range).
C++ integer division by zero is undefined behaviour, so the embedding of
`Value::operator/` returns an `Option Value`, with `none` on the undefined
integer-division-by-zero path.  The thrown/caught `std::runtime_error` of a
counter read is embedded as `Except Unit Int`.
-/

/-- Model of a C++ `double`: an exact rational extended with the IEEE-754
special values. Finite arithmetic is exact (rounding is not modelled). -/
inductive DoubleVal where
  | finite (q : ℚ)
  | posInf
  | negInf
  | nan
  deriving DecidableEq

/-- A `DoubleVal` is one of the IEEE special values (Inf or NaN), i.e. not finite. -/
def DoubleVal.isSpecial : DoubleVal → Bool
  | .finite _ => false
  | _ => true

/-- IEEE-style addition on the double model (exact in the finite case). -/
def DoubleVal.add : DoubleVal → DoubleVal → DoubleVal
  | .nan, _ => .nan
  | _, .nan => .nan
  | .finite a, .finite b => .finite (a + b)
  | .finite _, .posInf => .posInf
  | .finite _, .negInf => .negInf
  | .posInf, .finite _ => .posInf
  | .negInf, .finite _ => .negInf
  | .posInf, .posInf => .posInf
  | .negInf, .negInf => .negInf
  | .posInf, .negInf => .nan
  | .negInf, .posInf => .nan

/-- IEEE-style subtraction on the double model (exact in the finite case). -/
def DoubleVal.sub : DoubleVal → DoubleVal → DoubleVal
  | .nan, _ => .nan
  | _, .nan => .nan
  | .finite a, .finite b => .finite (a - b)
  | .finite _, .posInf => .negInf
  | .finite _, .negInf => .posInf
  | .posInf, .finite _ => .posInf
  | .negInf, .finite _ => .negInf
  | .posInf, .posInf => .nan
  | .negInf, .negInf => .nan
  | .posInf, .negInf => .posInf
  | .negInf, .posInf => .negInf

/-- IEEE-style multiplication on the double model (exact in the finite case). -/
def DoubleVal.mul : DoubleVal → DoubleVal → DoubleVal
  | .nan, _ => .nan
  | _, .nan => .nan
  | .finite a, .finite b => .finite (a * b)
  | .finite a, .posInf => if 0 < a then .posInf else if a < 0 then .negInf else .nan
  | .finite a, .negInf => if 0 < a then .negInf else if a < 0 then .posInf else .nan
  | .posInf, .finite b => if 0 < b then .posInf else if b < 0 then .negInf else .nan
  | .negInf, .finite b => if 0 < b then .negInf else if b < 0 then .posInf else .nan
  | .posInf, .posInf => .posInf
  | .negInf, .negInf => .posInf
  | .posInf, .negInf => .negInf
  | .negInf, .posInf => .negInf

/-- IEEE-style division on the double model.  A nonzero finite value divided by
(positive) zero gives the correspondingly signed infinity; zero divided by zero
gives NaN; a finite value divided by an infinity gives (signed) zero, which the
model collapses to `finite 0`. -/
def DoubleVal.div : DoubleVal → DoubleVal → DoubleVal
  | .nan, _ => .nan
  | _, .nan => .nan
  | .finite a, .finite b =>
      if b = 0 then (if 0 < a then .posInf else if a < 0 then .negInf else .nan)
      else .finite (a / b)
  | .finite _, .posInf => .finite 0
  | .finite _, .negInf => .finite 0
  | .posInf, .finite b => if b < 0 then .negInf else .posInf
  | .negInf, .finite b => if b < 0 then .posInf else .negInf
  | .posInf, _ => .nan
  | .negInf, _ => .nan

/-- Model of `static_cast<double>` applied to a `long long int`: exact for the
magnitudes the studied code handles (rounding above 2^53 is not modelled). -/
def intToDouble (n : ℤ) : DoubleVal := .finite (n : ℚ)

/-- Model of the square root of a rational as computed by IEEE `std::sqrt`:
exact on perfect squares of rationals (the cases the proofs below use), and a
deterministic integer-square-root approximation otherwise. -/
def ratSqrt (q : ℚ) : ℚ :=
  if (Nat.sqrt q.num.toNat : ℤ) ^ 2 = q.num ∧ (Nat.sqrt q.den) ^ 2 = q.den then
    (Nat.sqrt q.num.toNat : ℚ) / (Nat.sqrt q.den : ℚ)
  else
    (Nat.sqrt (q.num.toNat * q.den * 10 ^ 16) : ℚ) / ((q.den : ℚ) * 10 ^ 8)

/-- Model of `std::sqrt` on the double model: NaN on negative or NaN input,
+Inf on +Inf, and the rational square-root model on nonnegative finite input. -/
def DoubleVal.sqrtD : DoubleVal → DoubleVal
  | .nan => .nan
  | .posInf => .posInf
  | .negInf => .nan
  | .finite q => if q < 0 then .nan else .finite (ratSqrt q)

/-- The character for a decimal digit (`0 ≤ d ≤ 9`). -/
def digitChar (d : ℕ) : Char := Char.ofNat (48 + d)

/-- Least-significant-first decimal digits of a natural number, with explicit
fuel so that the definition is structural (the fuel `n + 1` always suffices). -/
def natDigitsAux : ℕ → ℕ → List ℕ
  | 0, _ => []
  | fuel + 1, n => if n = 0 then [] else n % 10 :: natDigitsAux fuel (n / 10)

/-- The number a least-significant-first decimal digit list denotes. -/
def digitsVal : List ℕ → ℕ
  | [] => 0
  | d :: rest => d + 10 * digitsVal rest

/-- Decimal digit characters of a natural number, most significant first, as
produced by streaming the number into a `std::stringstream`. -/
def natReprChars (n : ℕ) : List Char :=
  if n = 0 then ['0'] else ((natDigitsAux (n + 1) n).reverse.map digitChar)

/-- Decimal rendering of a `long long int` as streamed by `operator<<`:
an optional leading minus sign followed by the decimal digits. -/
def intReprChars (n : ℤ) : List Char :=
  if n < 0 then '-' :: natReprChars n.natAbs else natReprChars n.natAbs

/-- The digit characters of `n` left-padded with zeros to width 4 (the
fractional part of fixed-precision-4 output). -/
def padZeros4 (n : ℕ) : List Char :=
  List.replicate (4 - (natReprChars n).length) '0' ++ natReprChars n

/-- Round a rational to the nearest integer, ties to even — the rounding of a
correctly-rounded fixed-notation conversion. -/
def roundHalfEven (x : ℚ) : ℤ :=
  let f := ⌊x⌋
  let r := x - (f : ℚ)
  if r < 1 / 2 then f else if 1 / 2 < r then f + 1 else if f % 2 = 0 then f else f + 1

/-- Fixed-notation rendering of a finite double with 4 digits after the
decimal point, the model of `ss << std::fixed; ss.precision(4); ss << d`. -/
def fixedFourChars (q : ℚ) : List Char :=
  let n := roundHalfEven (q * 10000)
  (if n < 0 then ['-'] else []) ++
    natReprChars (n.natAbs / 10000) ++ ['.'] ++ padZeros4 (n.natAbs % 10000)

/-- Rendering of a double under `std::fixed` with precision 4; the special
values print their usual libstdc++ spellings. -/
def DoubleVal.render : DoubleVal → List Char
  | .finite q => fixedFourChars q
  | .posInf => ['i', 'n', 'f']
  | .negInf => ['-', 'i', 'n', 'f']
  | .nan => ['n', 'a', 'n']

/-- The numeric value of a decimal digit character. -/
def charToDigit (c : Char) : ℕ := c.toNat - 48

/-- Parse a nonempty all-digit character list as a natural number. -/
def parseNatChars (l : List Char) : Option ℕ :=
  if l = [] then none
  else if l.all (fun c => c.isDigit) then
    some (l.foldl (fun a c => a * 10 + charToDigit c) 0)
  else none

/-- Parse an optional minus sign followed by decimal digits as an integer. -/
def parseIntChars (l : List Char) : Option ℤ :=
  match l with
  | [] => none
  | c :: rest =>
      if c = '-' then Option.map (fun m : ℕ => -(m : ℤ)) (parseNatChars rest)
      else Option.map (fun m : ℕ => (m : ℤ)) (parseNatChars (c :: rest))

/-- Parse a string as a plain decimal integer. -/
def parseInt (s : String) : Option ℤ := parseIntChars s.data

/-- Embedding of `Measurement::Value` (src/measurement.h).  The C++ union is
modelled as two fields of which only the one selected by `is_floating_point`
is meaningful; every operation touches only the selected field, exactly as the
source pattern-matches on the tag. -/
structure Value where
  floating_point : DoubleVal
  integer : ℤ
  is_floating_point : Bool
  deriving DecidableEq

/-- The `Value(bool is_floating)` constructor: zero payload, given tag. -/
def Value.init (is_floating : Bool) : Value :=
  { floating_point := .finite 0, integer := 0, is_floating_point := is_floating }

/-- An integer-tagged `Value` holding `n`, as built by `Measurement`'s
integer constructor (`Value(false)` followed by `v.integer = n`). -/
def Value.ofInt (n : ℤ) : Value :=
  { floating_point := .finite 0, integer := n, is_floating_point := false }

/-- A floating-tagged `Value` holding `d`, as built by `Measurement`'s
floating constructor (`Value(true)` followed by `v.floating_point = d`). -/
def Value.ofFloat (d : DoubleVal) : Value :=
  { floating_point := d, integer := 0, is_floating_point := true }

/-- Embedding of `Value::operator<<` / `Value::to_string` (src/measurement.h
lines 52-77): floating values render fixed with precision 4, integer values
render as a plain decimal integer. -/
def Value.to_string (a : Value) : String :=
  if a.is_floating_point then ⟨DoubleVal.render a.floating_point⟩
  else ⟨intReprChars a.integer⟩

/-- Embedding of `Value::operator+` (src/measurement.h lines 84-95).
`a.add b` is `a + b` in C++: the by-value copy of the argument `b` has `a`'s
tag-selected member added into it and is returned. -/
def Value.add (a b : Value) : Value :=
  if a.is_floating_point then
    { b with floating_point := DoubleVal.add b.floating_point a.floating_point }
  else
    { b with integer := b.integer + a.integer }

/-- Embedding of `Value::operator-` (src/measurement.h lines 103-114).
`a.sub b` is `a - b` in C++; note the source subtracts `this`'s member FROM
the by-value copy of `b` and returns that copy, so the returned payload is
`b - a`, not `a - b` as the surrounding doc comment states. -/
def Value.sub (a b : Value) : Value :=
  if a.is_floating_point then
    { b with floating_point := DoubleVal.sub b.floating_point a.floating_point }
  else
    { b with integer := b.integer - a.integer }

/-- Embedding of `Value::operator*` (src/measurement.h lines 122-133). -/
def Value.mul (a b : Value) : Value :=
  if a.is_floating_point then
    { b with floating_point := DoubleVal.mul b.floating_point a.floating_point }
  else
    { b with integer := b.integer * a.integer }

/-- Embedding of `Value::operator/` (src/measurement.h lines 141-153), which
divides by an `int` scalar.  The floating branch is IEEE division (total); the
integer branch is C++ truncating division, which is undefined behaviour when
the divisor is zero — modelled as `none`. -/
def Value.divScalar (a : Value) (b : ℤ) : Option Value :=
  if a.is_floating_point then
    some { Value.init true with floating_point := DoubleVal.div a.floating_point (.finite (b : ℚ)) }
  else if b = 0 then none
  else some { Value.init false with integer := Int.tdiv a.integer b }

/-- Embedding of `Value::operator-=` (src/measurement.h lines 161-172).
The C++ member function mutates the receiver and leaves its `const &` argument
untouched; the explicit-state-passing embedding returns the post-states of
(receiver, argument). -/
def Value.subEq (a b : Value) : Value × Value :=
  (if a.is_floating_point then
     { a with floating_point := DoubleVal.sub a.floating_point b.floating_point }
   else
     { a with integer := a.integer - b.integer }, b)

/-- Embedding of `Value::relative_standard_deviation` (src/measurement.h
lines 199-209): `100 * sqrt(variance) / mean`, computed on the member selected
by `variance`'s tag, with integer members cast to double. -/
def Value.relative_standard_deviation (variance mean : Value) : DoubleVal :=
  if variance.is_floating_point then
    DoubleVal.div (DoubleVal.mul (.finite 100) (DoubleVal.sqrtD variance.floating_point))
      mean.floating_point
  else
    DoubleVal.div (DoubleVal.mul (.finite 100) (DoubleVal.sqrtD (intToDouble variance.integer)))
      (intToDouble mean.integer)

/-- The operand of `relative_standard_deviation` as it is consumed in floating
point: the floating member for a floating-tagged value, the integer member
cast to double otherwise.  This is the specification-side reading of the
operands, to be compared with the source definition above. -/
def Value.asDouble (a : Value) : DoubleVal :=
  if a.is_floating_point then a.floating_point else intToDouble a.integer

/-- Embedding of `Measurement` (src/measurement.h lines 35-315): a unit, the
raw string samples, and the stored `Value`. -/
structure Measurement where
  unit : String
  raw_data : List String
  value : Value
  deriving DecidableEq

/-- The floating-point `Measurement` constructor (src/measurement.h lines
252-263): stores the double, and when no raw samples are supplied, defaults
`raw_data` to the single rendered string of the stored value. -/
def Measurement.ofFloating (v : DoubleVal) (unit : String) (raw : List String) : Measurement :=
  let val := Value.ofFloat v
  { unit := unit,
    raw_data := if raw = [] then [val.to_string] else raw,
    value := val }

/-- The integer `Measurement` constructor (src/measurement.h lines 271-282):
stores the integer, and when no raw samples are supplied, defaults `raw_data`
to the single rendered string of the stored value. -/
def Measurement.ofInteger (n : ℤ) (unit : String) (raw : List String) : Measurement :=
  let val := Value.ofInt n
  { unit := unit,
    raw_data := if raw = [] then [val.to_string] else raw,
    value := val }

/-- Modelled from the spec: the opaque counter-handle capability (the `PMU`
wrapper declared in the repository's headers, which are not part of src/).
Per the spec, `reset()` cannot fail and zeroes the counter, and `get_value()`
either returns the accumulated count or raises a runtime error when the
counter is unreadable on this host.  `value` is the count the handle would
currently report; `fails` records whether `get_value` raises. -/
structure CounterHandle where
  value : ℤ
  fails : Bool
  deriving DecidableEq

/-- Modelled from the spec: `get_value()` returns the count or raises. -/
def CounterHandle.get_value (h : CounterHandle) : Except Unit ℤ :=
  if h.fails then .error () else .ok h.value

/-- Modelled from the spec: `reset()` zeroes the counter and cannot fail. -/
def CounterHandle.reset (h : CounterHandle) : CounterHandle :=
  { h with value := 0 }

/-- Embedding of the `PMUCounter` instrument state: six exclusively owned
counter handles and the six accumulators written by `stop()`.  (The member
declarations live in the repository's pmu_counter header, outside src/; the
fields are named after the source members without the leading underscore.) -/
structure PMUCounter where
  pmu_cycles : CounterHandle
  pmu_instructions : CounterHandle
  pmu_cache_references : CounterHandle
  pmu_cache_misses : CounterHandle
  pmu_branch_instructions : CounterHandle
  pmu_branch_misses : CounterHandle
  cycles : ℤ
  instructions : ℤ
  cache_references : ℤ
  cache_misses : ℤ
  branch_instructions : ℤ
  branch_misses : ℤ
  deriving DecidableEq

/-- One try/catch block of `PMUCounter::stop` (src/pmu_counter.cpp lines
43-51 and its five clones): on success the accumulator receives the read
value and the handle is reset; on a runtime error the accumulator is zeroed
and the handle is left untouched.  Returns (accumulator, post-state handle). -/
def captureCounter (h : CounterHandle) : ℤ × CounterHandle :=
  match h.get_value with
  | .ok v => (v, h.reset)
  | .error _ => (0, h)

/-- Embedding of `PMUCounter::start` (src/pmu_counter.cpp lines 31-39):
resets the six counter handles and touches nothing else. -/
def PMUCounter.start (st : PMUCounter) : PMUCounter :=
  { st with
    pmu_cycles := st.pmu_cycles.reset,
    pmu_instructions := st.pmu_instructions.reset,
    pmu_cache_references := st.pmu_cache_references.reset,
    pmu_cache_misses := st.pmu_cache_misses.reset,
    pmu_branch_instructions := st.pmu_branch_instructions.reset,
    pmu_branch_misses := st.pmu_branch_misses.reset }

/-- Embedding of `PMUCounter::stop` (src/pmu_counter.cpp lines 41-102):
six independent capture blocks, one per counter. -/
def PMUCounter.stop (st : PMUCounter) : PMUCounter :=
  let c := captureCounter st.pmu_cycles
  let i := captureCounter st.pmu_instructions
  let cr := captureCounter st.pmu_cache_references
  let cm := captureCounter st.pmu_cache_misses
  let bi := captureCounter st.pmu_branch_instructions
  let bm := captureCounter st.pmu_branch_misses
  { pmu_cycles := c.2,
    pmu_instructions := i.2,
    pmu_cache_references := cr.2,
    pmu_cache_misses := cm.2,
    pmu_branch_instructions := bi.2,
    pmu_branch_misses := bm.2,
    cycles := c.1,
    instructions := i.1,
    cache_references := cr.1,
    cache_misses := cm.1,
    branch_instructions := bi.1,
    branch_misses := bm.1 }

/-- Embedding of `PMUCounter::id` (src/pmu_counter.cpp lines 26-29). -/
def PMUCounter.id_string : String := "PMU Counter"

/-- Embedding of `PMUCounter::measurements` (src/pmu_counter.cpp lines
104-112): a freshly built four-entry mapping.  The returned
`Instrument::MeasurementsMap` is modelled from the spec as a mapping from
string to `Measurement` (its declaration lives in the instrument contract
header, outside src/), here an association list in source order. -/
def PMUCounter.measurements (st : PMUCounter) : List (String × Measurement) :=
  [("CPU cycles", Measurement.ofInteger st.cycles ("cycles") []),
   ("CPU instructions", Measurement.ofInteger st.instructions ("instructions") []),
   ("Cache miss ratio",
     Measurement.ofFloating
       (DoubleVal.div (intToDouble st.cache_misses) (intToDouble st.cache_references)) ("") []),
   ("Branch miss ratio",
     Measurement.ofFloating
       (DoubleVal.div (intToDouble st.branch_misses) (intToDouble st.branch_instructions)) ("") [])]

/-- A concrete instrument state: the cycles handle reads 5 and works, the
instructions handle would read 7 but fails, every other handle reads 0. -/
def stW2 : PMUCounter :=
  { pmu_cycles := ⟨5, false⟩, pmu_instructions := ⟨7, true⟩,
    pmu_cache_references := ⟨0, false⟩, pmu_cache_misses := ⟨0, false⟩,
    pmu_branch_instructions := ⟨0, false⟩, pmu_branch_misses := ⟨0, false⟩,
    cycles := 0, instructions := 0, cache_references := 0, cache_misses := 0,
    branch_instructions := 0, branch_misses := 0 }

/-- A concrete instrument state whose last capture was cycles = 1000 and
instructions = 500. -/
def stW3 : PMUCounter :=
  { pmu_cycles := ⟨0, false⟩, pmu_instructions := ⟨0, false⟩,
    pmu_cache_references := ⟨0, false⟩, pmu_cache_misses := ⟨0, false⟩,
    pmu_branch_instructions := ⟨0, false⟩, pmu_branch_misses := ⟨0, false⟩,
    cycles := 1000, instructions := 500, cache_references := 0, cache_misses := 0,
    branch_instructions := 0, branch_misses := 0 }

/-- A concrete instrument state whose cache-references handle always fails
and whose cache-misses handle succeeds with 100. -/
def stW4 : PMUCounter :=
  { pmu_cycles := ⟨0, false⟩, pmu_instructions := ⟨0, false⟩,
    pmu_cache_references := ⟨0, true⟩, pmu_cache_misses := ⟨100, false⟩,
    pmu_branch_instructions := ⟨1, false⟩, pmu_branch_misses := ⟨0, false⟩,
    cycles := 0, instructions := 0, cache_references := 0, cache_misses := 0,
    branch_instructions := 0, branch_misses := 0 }

/-- A concrete instrument state about to capture cycles = 1000 with all
handles healthy. -/
def stW7 : PMUCounter :=
  { pmu_cycles := ⟨1000, false⟩, pmu_instructions := ⟨0, false⟩,
    pmu_cache_references := ⟨0, false⟩, pmu_cache_misses := ⟨0, false⟩,
    pmu_branch_instructions := ⟨0, false⟩, pmu_branch_misses := ⟨0, false⟩,
    cycles := 0, instructions := 0, cache_references := 0, cache_misses := 0,
    branch_instructions := 0, branch_misses := 0 }

theorem captureCounter_fails {h : CounterHandle} (hf : h.fails = true) :
    captureCounter h = (0, h) := by
  simp [captureCounter, CounterHandle.get_value, hf]

theorem captureCounter_ok {h : CounterHandle} (hf : h.fails = false) :
    captureCounter h = (h.value, h.reset) := by
  simp [captureCounter, CounterHandle.get_value, hf]

theorem capturePair (h : CounterHandle) :
    (h.fails = true → (captureCounter h).1 = 0 ∧ (captureCounter h).2 = h)
    ∧ (h.fails = false →
        (captureCounter h).1 = h.value ∧ (captureCounter h).2 = h.reset) := by
  constructor
  · intro hf
    rw [captureCounter_fails hf]
    exact ⟨rfl, rfl⟩
  · intro hf
    rw [captureCounter_ok hf]
    exact ⟨rfl, rfl⟩

theorem div_finite_zero_special (d : DoubleVal) :
    DoubleVal.isSpecial (DoubleVal.div d (.finite 0)) = true := by
  cases d with
  | nan => rfl
  | posInf => simp [DoubleVal.div, DoubleVal.isSpecial]
  | negInf => simp [DoubleVal.div, DoubleVal.isSpecial]
  | finite a =>
      simp only [DoubleVal.div, if_pos rfl]
      split_ifs <;> rfl

theorem div_int_zero_special (m : ℤ) :
    DoubleVal.isSpecial (DoubleVal.div (intToDouble m) (intToDouble 0)) = true := by
  have : intToDouble 0 = DoubleVal.finite 0 := by simp [intToDouble]
  rw [intToDouble, this]
  exact div_finite_zero_special _

/-- C1: the claim `subtract(add(a, b), b) == a` fails on the code.
`Value::operator-` subtracts `this`'s member from the by-value copy of its
argument and returns that copy, so `a - b` evaluates to `b - a` (contradicting
the operator's own doc comment "Result of the stored value - b").  At the
integer-tagged input a = 1, b = 2: `add(a, b)` is 3, and `subtract(3, b)`
returns 2 - 3 = -1, not 1; the tags are preserved as claimed, but the value
equation is violated. -/
theorem subtract_add_failing_eval :
    (Value.sub (Value.add (Value.ofInt 1) (Value.ofInt 2)) (Value.ofInt 2)).integer = -1
    ∧ (Value.sub (Value.add (Value.ofInt 1) (Value.ofInt 2)) (Value.ofInt 2)).is_floating_point
        = false
    ∧ Value.sub (Value.add (Value.ofInt 1) (Value.ofInt 2)) (Value.ofInt 2) ≠ Value.ofInt 1 := by
  refine ⟨rfl, rfl, ?_⟩
  decide

/-- C6 (counterexample): `divide_by_scalar` is not a total function on an
integer-tagged Value with divisor 0: `Value::operator/` then performs C++
integer division by zero, which is undefined behaviour (modelled as `none`),
not a floating special value. -/
theorem divide_integer_by_zero_undefined :
    Value.divScalar (Value.ofInt 5) 0 = none
    ∧ (Value.ofInt 5).is_floating_point = false := ⟨rfl, rfl⟩

/-- C6 (amended): `divide_by_scalar(a, n)` is total and tag-preserving
whenever `a` is floating-tagged (with n = 0 producing a floating special
value) or `n ≠ 0` (the integer case being truncating division); only the
integer-tagged division by zero is undefined. -/
theorem divide_by_scalar_totality (a : Value) (n : ℤ)
    (h : a.is_floating_point = true ∨ n ≠ 0) :
    (Value.divScalar a n).isSome = true
    ∧ (Value.divScalar a n).map Value.is_floating_point = some a.is_floating_point
    ∧ (a.is_floating_point = true → n = 0 →
        (Value.divScalar a n).map (fun r => DoubleVal.isSpecial r.floating_point) = some true)
    ∧ (a.is_floating_point = false →
        (Value.divScalar a n).map Value.integer = some (Int.tdiv a.integer n)) := by
  cases hf : a.is_floating_point with
  | false =>
      have hn : n ≠ 0 := by
        rcases h with h' | h'
        · rw [hf] at h'; exact absurd h' (by simp)
        · exact h'
      simp [Value.divScalar, hf, hn, Value.init]
  | true =>
      refine ⟨by simp [Value.divScalar, hf],
        by simp [Value.divScalar, hf, Value.init], ?_, by simp [hf]⟩
      intro _ hn0
      subst hn0
      have hcast : ((0 : ℤ) : ℚ) = 0 := by norm_num
      simp [Value.divScalar, hf, hcast, div_finite_zero_special]

theorem divide_by_scalar_totality_witness :
    ((Value.ofFloat (.finite 1)).is_floating_point = true ∨ (0 : ℤ) ≠ 0)
    ∧ (Value.divScalar (Value.ofFloat (.finite 1)) 0).map
        (fun r => DoubleVal.isSpecial r.floating_point) = some true := by
  have h := divide_by_scalar_totality (Value.ofFloat (.finite 1)) 0 (Or.inl rfl)
  exact ⟨Or.inl rfl, h.2.2.1 rfl rfl⟩

/-- C7 (counterexample): `start()` does not discard previously captured data.
After a capture of cycles = 1000, calling `start()` leaves the accumulator at
1000, and `measurements()` invoked between that `start()` and the next
`stop()` still returns the discarded older interval's "CPU cycles" = 1000. -/
theorem start_keeps_old_capture :
    (PMUCounter.stop stW7).cycles = 1000
    ∧ (PMUCounter.start (PMUCounter.stop stW7)).cycles = 1000
    ∧ (PMUCounter.measurements (PMUCounter.start (PMUCounter.stop stW7))).lookup ("CPU cycles")
        = some (Measurement.ofInteger 1000 ("cycles") []) := ⟨rfl, rfl, rfl⟩

/-- C7 (amended): `start()` resets all six counter handles to zero (leaving
their failure state unchanged) but leaves the six accumulators untouched, so
previously captured data stays visible to `measurements()` until the next
`stop()`; the accumulators that `stop()` installs are computed from the
handles alone (one capture per handle), not from any older accumulator, so
after the next `stop()` the mapping reflects only the new interval. -/
theorem start_resets_handles_only (st : PMUCounter) :
    ((PMUCounter.start st).cycles = st.cycles
     ∧ (PMUCounter.start st).instructions = st.instructions
     ∧ (PMUCounter.start st).cache_references = st.cache_references
     ∧ (PMUCounter.start st).cache_misses = st.cache_misses
     ∧ (PMUCounter.start st).branch_instructions = st.branch_instructions
     ∧ (PMUCounter.start st).branch_misses = st.branch_misses)
    ∧ ((PMUCounter.start st).pmu_cycles.value = 0
     ∧ (PMUCounter.start st).pmu_cycles.fails = st.pmu_cycles.fails
     ∧ (PMUCounter.start st).pmu_instructions.value = 0
     ∧ (PMUCounter.start st).pmu_instructions.fails = st.pmu_instructions.fails
     ∧ (PMUCounter.start st).pmu_cache_references.value = 0
     ∧ (PMUCounter.start st).pmu_cache_references.fails = st.pmu_cache_references.fails
     ∧ (PMUCounter.start st).pmu_cache_misses.value = 0
     ∧ (PMUCounter.start st).pmu_cache_misses.fails = st.pmu_cache_misses.fails
     ∧ (PMUCounter.start st).pmu_branch_instructions.value = 0
     ∧ (PMUCounter.start st).pmu_branch_instructions.fails = st.pmu_branch_instructions.fails
     ∧ (PMUCounter.start st).pmu_branch_misses.value = 0
     ∧ (PMUCounter.start st).pmu_branch_misses.fails = st.pmu_branch_misses.fails)
    ∧ ((PMUCounter.stop st).cycles = (captureCounter st.pmu_cycles).1
     ∧ (PMUCounter.stop st).instructions = (captureCounter st.pmu_instructions).1
     ∧ (PMUCounter.stop st).cache_references = (captureCounter st.pmu_cache_references).1
     ∧ (PMUCounter.stop st).cache_misses = (captureCounter st.pmu_cache_misses).1
     ∧ (PMUCounter.stop st).branch_instructions = (captureCounter st.pmu_branch_instructions).1
     ∧ (PMUCounter.stop st).branch_misses = (captureCounter st.pmu_branch_misses).1) :=
  ⟨⟨rfl, rfl, rfl, rfl, rfl, rfl⟩,
   ⟨rfl, rfl, rfl, rfl, rfl, rfl, rfl, rfl, rfl, rfl, rfl, rfl⟩,
   ⟨rfl, rfl, rfl, rfl, rfl, rfl⟩⟩

/-- C10: `operator-=` mutates only the payload member of the receiver that is
selected by the receiver's tag, subtracting the argument's matching member;
the receiver's tag is unchanged, the non-selected payload member is unchanged,
and the argument is not modified at all. -/
theorem subtract_in_place_frame (a b : Value) :
    (Value.subEq a b).2 = b
    ∧ (Value.subEq a b).1.is_floating_point = a.is_floating_point
    ∧ (a.is_floating_point = true →
        (Value.subEq a b).1.floating_point = DoubleVal.sub a.floating_point b.floating_point
        ∧ (Value.subEq a b).1.integer = a.integer)
    ∧ (a.is_floating_point = false →
        (Value.subEq a b).1.integer = a.integer - b.integer
        ∧ (Value.subEq a b).1.floating_point = a.floating_point) := by
  cases hf : a.is_floating_point <;> simp [Value.subEq, hf]

theorem subtract_in_place_frame_witness :
    (Value.subEq (Value.ofInt 5) (Value.ofInt 2)).1.integer = 3
    ∧ (Value.subEq (Value.ofInt 5) (Value.ofInt 2)).2 = Value.ofInt 2
    ∧ (Value.ofInt 5).is_floating_point = false := by
  have h := subtract_in_place_frame (Value.ofInt 5) (Value.ofInt 2)
  refine ⟨?_, h.1, rfl⟩
  rw [(h.2.2.2 rfl).1]
  decide

theorem digitsVal_natDigitsAux :
    ∀ (fuel n : ℕ), n ≤ fuel → digitsVal (natDigitsAux fuel n) = n := by
  intro fuel
  induction fuel with
  | zero =>
      intro n h
      have : n = 0 := Nat.le_zero.mp h
      subst this
      rfl
  | succ f ih =>
      intro n h
      by_cases h0 : n = 0
      · subst h0; simp [natDigitsAux, digitsVal]
      · have hdiv : n / 10 ≤ f := by
          have := Nat.div_lt_self (Nat.pos_of_ne_zero h0) (by norm_num : 1 < 10)
          omega
        simp only [natDigitsAux, if_neg h0, digitsVal]
        rw [ih _ hdiv]
        omega

theorem natDigitsAux_lt_ten :
    ∀ (fuel n d : ℕ), d ∈ natDigitsAux fuel n → d < 10 := by
  intro fuel
  induction fuel with
  | zero => intro n d hd; simp [natDigitsAux] at hd
  | succ f ih =>
      intro n d hd
      by_cases h0 : n = 0
      · subst h0; simp [natDigitsAux] at hd
      · simp only [natDigitsAux, if_neg h0, List.mem_cons] at hd
        rcases hd with hd | hd
        · subst hd; exact Nat.mod_lt _ (by norm_num)
        · exact ih _ _ hd

theorem natDigitsAux_ne_nil (fuel n : ℕ) (h0 : n ≠ 0) (hf : fuel ≠ 0) :
    natDigitsAux fuel n ≠ [] := by
  cases fuel with
  | zero => exact absurd rfl hf
  | succ f => simp [natDigitsAux, h0]

theorem digitChar_spec (d : ℕ) (hd : d < 10) :
    (digitChar d).isDigit = true ∧ charToDigit (digitChar d) = d ∧ digitChar d ≠ '-' := by
  interval_cases d <;> exact ⟨by decide, by decide, by decide⟩

theorem foldl_horner (L : List ℕ) (a : ℕ) :
    List.foldl (fun acc d => acc * 10 + d) a L.reverse = a * 10 ^ L.length + digitsVal L := by
  induction L generalizing a with
  | nil => simp [digitsVal]
  | cons d T ih =>
      simp only [List.reverse_cons, List.foldl_append, List.foldl_cons, List.foldl_nil, ih,
        digitsVal, List.length_cons, pow_succ]
      ring

theorem foldl_map_digitChar (L : List ℕ) (h : ∀ d ∈ L, d < 10) (a : ℕ) :
    List.foldl (fun acc c => acc * 10 + charToDigit c) a (L.map digitChar)
      = List.foldl (fun acc d => acc * 10 + d) a L := by
  induction L generalizing a with
  | nil => rfl
  | cons d T ih =>
      simp only [List.map_cons, List.foldl_cons]
      rw [(digitChar_spec d (h d (by simp))).2.1]
      exact ih (fun x hx => h x (by simp [hx])) _

theorem natReprChars_ne_nil (n : ℕ) : natReprChars n ≠ [] := by
  by_cases h0 : n = 0
  · subst h0; simp [natReprChars]
  · simp only [natReprChars, if_neg h0]
    intro hcontra
    have := natDigitsAux_ne_nil (n + 1) n h0 (by omega)
    simp at hcontra
    exact this hcontra

theorem natReprChars_all_digit (n : ℕ) : ∀ c ∈ natReprChars n, c.isDigit = true := by
  intro c hc
  by_cases h0 : n = 0
  · subst h0; simp [natReprChars] at hc; subst hc; decide
  · simp only [natReprChars, if_neg h0, List.mem_map, List.mem_reverse] at hc
    obtain ⟨d, hd, rfl⟩ := hc
    exact (digitChar_spec d (natDigitsAux_lt_ten _ _ _ hd)).1

theorem parseNat_natReprChars (n : ℕ) : parseNatChars (natReprChars n) = some n := by
  by_cases h0 : n = 0
  · subst h0; decide
  · have hne := natReprChars_ne_nil n
    have hall : (natReprChars n).all (fun c => c.isDigit) = true :=
      List.all_eq_true.mpr (fun c hc => natReprChars_all_digit n c hc)
    simp only [parseNatChars, if_neg hne, hall, if_pos]
    congr 1
    simp only [natReprChars, if_neg h0]
    rw [foldl_map_digitChar ((natDigitsAux (n + 1) n).reverse)
        (fun d hd => natDigitsAux_lt_ten _ _ _ (List.mem_reverse.mp hd)) 0]
    rw [foldl_horner]
    rw [digitsVal_natDigitsAux (n + 1) n (by omega)]
    ring

theorem parseIntChars_neg (l : List Char) :
    parseIntChars ('-' :: l) = Option.map (fun m : ℕ => -(m : ℤ)) (parseNatChars l) := by
  simp [parseIntChars]

theorem parseIntChars_nonneg (c : Char) (l : List Char) (h : c ≠ '-') :
    parseIntChars (c :: l) = Option.map (fun m : ℕ => (m : ℤ)) (parseNatChars (c :: l)) := by
  simp [parseIntChars, h]

theorem parseInt_intReprChars (n : ℤ) : parseIntChars (intReprChars n) = some n := by
  by_cases hn : n < 0
  · rw [intReprChars, if_pos hn, parseIntChars_neg, parseNat_natReprChars]
    have habs : -((n.natAbs : ℤ)) = n := by omega
    rw [show Option.map (fun m : ℕ => -((m : ℤ))) (some n.natAbs) = some (-((n.natAbs : ℤ)))
      from rfl]
    exact congrArg some habs
  · rw [intReprChars, if_neg hn]
    rcases hcons : natReprChars n.natAbs with _ | ⟨c, rest⟩
    · exact absurd hcons (natReprChars_ne_nil _)
    · have hcdig : c.isDigit = true := by
        apply natReprChars_all_digit n.natAbs
        rw [hcons]; simp
      have hcne : c ≠ '-' := by
        intro hc; rw [hc] at hcdig; exact absurd hcdig (by decide)
      rw [parseIntChars_nonneg c rest hcne, ← hcons, parseNat_natReprChars]
      have habs : ((n.natAbs : ℤ)) = n := by omega
      rw [show Option.map (fun m : ℕ => ((m : ℤ))) (some n.natAbs) = some ((n.natAbs : ℤ))
        from rfl]
      exact congrArg some habs

/-- C8: for every integer-tagged Value, `to_string` is the plain decimal
rendering of the stored 64-bit integer — an optional minus sign followed by
decimal digits only, so no scientific notation and no separators — and that
string parses back to exactly the stored integer. -/
theorem integer_to_string_roundtrip (v : Value) (h : v.is_floating_point = false) :
    parseInt v.to_string = some v.integer
    ∧ ∀ c ∈ v.to_string.data, c.isDigit = true ∨ c = '-' := by
  have hts : v.to_string = ⟨intReprChars v.integer⟩ := by
    simp [Value.to_string, h]
  rw [hts]
  constructor
  · exact parseInt_intReprChars v.integer
  · intro c hc
    have hc' : c ∈ intReprChars v.integer := hc
    by_cases hn : v.integer < 0
    · simp only [intReprChars, if_pos hn, List.mem_cons] at hc'
      rcases hc' with hc' | hc'
      · exact Or.inr hc'
      · exact Or.inl (natReprChars_all_digit _ c hc')
    · simp only [intReprChars, if_neg hn] at hc'
      exact Or.inl (natReprChars_all_digit _ c hc')

theorem integer_to_string_roundtrip_witness :
    (Value.ofInt 1000).is_floating_point = false
    ∧ parseInt (Value.ofInt 1000).to_string = some 1000 :=
  ⟨rfl, (integer_to_string_roundtrip (Value.ofInt 1000) rfl).1⟩

/-- C2: in `stop()`, each of the six counters is captured independently.  If
a counter's `get_value()` raises the counter-unreadable error, its
accumulator is set to zero and its handle is NOT reset; otherwise the
accumulator receives the read value and the handle is reset.  Each counter's
outcome is a function of that counter's handle alone, so one counter's
failure cannot affect the others' capture, and `stop()` (a total function in
this embedding) propagates no failure. -/
theorem stop_per_counter_isolation (st : PMUCounter) :
    ((st.pmu_cycles.fails = true →
        (PMUCounter.stop st).cycles = 0
        ∧ (PMUCounter.stop st).pmu_cycles = st.pmu_cycles)
     ∧ (st.pmu_cycles.fails = false →
        (PMUCounter.stop st).cycles = st.pmu_cycles.value
        ∧ (PMUCounter.stop st).pmu_cycles = st.pmu_cycles.reset))
    ∧ ((st.pmu_instructions.fails = true →
        (PMUCounter.stop st).instructions = 0
        ∧ (PMUCounter.stop st).pmu_instructions = st.pmu_instructions)
     ∧ (st.pmu_instructions.fails = false →
        (PMUCounter.stop st).instructions = st.pmu_instructions.value
        ∧ (PMUCounter.stop st).pmu_instructions = st.pmu_instructions.reset))
    ∧ ((st.pmu_cache_references.fails = true →
        (PMUCounter.stop st).cache_references = 0
        ∧ (PMUCounter.stop st).pmu_cache_references = st.pmu_cache_references)
     ∧ (st.pmu_cache_references.fails = false →
        (PMUCounter.stop st).cache_references = st.pmu_cache_references.value
        ∧ (PMUCounter.stop st).pmu_cache_references = st.pmu_cache_references.reset))
    ∧ ((st.pmu_cache_misses.fails = true →
        (PMUCounter.stop st).cache_misses = 0
        ∧ (PMUCounter.stop st).pmu_cache_misses = st.pmu_cache_misses)
     ∧ (st.pmu_cache_misses.fails = false →
        (PMUCounter.stop st).cache_misses = st.pmu_cache_misses.value
        ∧ (PMUCounter.stop st).pmu_cache_misses = st.pmu_cache_misses.reset))
    ∧ ((st.pmu_branch_instructions.fails = true →
        (PMUCounter.stop st).branch_instructions = 0
        ∧ (PMUCounter.stop st).pmu_branch_instructions = st.pmu_branch_instructions)
     ∧ (st.pmu_branch_instructions.fails = false →
        (PMUCounter.stop st).branch_instructions = st.pmu_branch_instructions.value
        ∧ (PMUCounter.stop st).pmu_branch_instructions = st.pmu_branch_instructions.reset))
    ∧ ((st.pmu_branch_misses.fails = true →
        (PMUCounter.stop st).branch_misses = 0
        ∧ (PMUCounter.stop st).pmu_branch_misses = st.pmu_branch_misses)
     ∧ (st.pmu_branch_misses.fails = false →
        (PMUCounter.stop st).branch_misses = st.pmu_branch_misses.value
        ∧ (PMUCounter.stop st).pmu_branch_misses = st.pmu_branch_misses.reset)) :=
  ⟨capturePair st.pmu_cycles, capturePair st.pmu_instructions,
   capturePair st.pmu_cache_references, capturePair st.pmu_cache_misses,
   capturePair st.pmu_branch_instructions, capturePair st.pmu_branch_misses⟩

theorem stop_per_counter_isolation_witness :
    stW2.pmu_cycles.fails = false
    ∧ stW2.pmu_instructions.fails = true
    ∧ (PMUCounter.stop stW2).cycles = 5
    ∧ (PMUCounter.stop stW2).instructions = 0
    ∧ (PMUCounter.stop stW2).pmu_instructions = stW2.pmu_instructions := by
  have h := stop_per_counter_isolation stW2
  exact ⟨rfl, rfl, (h.1.2 rfl).1, (h.2.1.1 rfl).1, (h.2.1.1 rfl).2⟩

/-- C3: `measurements()` is a pure function of the captured accumulators, so
every call after a `stop()` returns the same freshly built four-entry
mapping: "CPU cycles" is the integer-tagged Measurement of the cycles
accumulator with unit "cycles", "CPU instructions" likewise with unit
"instructions", and the two ratios are floating-tagged Measurements of
cache_misses / cache_references and branch_misses / branch_instructions with
empty unit; captured cycles = 1000 and instructions = 500 render as "1000"
and "500". -/
theorem measurements_content (st : PMUCounter) :
    (PMUCounter.measurements st).length = 4
    ∧ (PMUCounter.measurements st).lookup ("CPU cycles")
        = some (Measurement.ofInteger st.cycles ("cycles") [])
    ∧ (PMUCounter.measurements st).lookup ("CPU instructions")
        = some (Measurement.ofInteger st.instructions ("instructions") [])
    ∧ (PMUCounter.measurements st).lookup ("Cache miss ratio")
        = some (Measurement.ofFloating
            (DoubleVal.div (intToDouble st.cache_misses) (intToDouble st.cache_references))
            ("") [])
    ∧ (PMUCounter.measurements st).lookup ("Branch miss ratio")
        = some (Measurement.ofFloating
            (DoubleVal.div (intToDouble st.branch_misses) (intToDouble st.branch_instructions))
            ("") [])
    ∧ (Measurement.ofInteger st.cycles ("cycles") []).value.is_floating_point = false
    ∧ (Measurement.ofInteger st.instructions ("instructions") []).value.is_floating_point = false
    ∧ (Measurement.ofFloating
          (DoubleVal.div (intToDouble st.cache_misses) (intToDouble st.cache_references))
          ("") []).value.is_floating_point = true
    ∧ (Measurement.ofFloating
          (DoubleVal.div (intToDouble st.branch_misses) (intToDouble st.branch_instructions))
          ("") []).value.is_floating_point = true
    ∧ (st.cycles = 1000 →
        (Measurement.ofInteger st.cycles ("cycles") []).value.to_string = "1000")
    ∧ (st.instructions = 500 →
        (Measurement.ofInteger st.instructions ("instructions") []).value.to_string = "500") := by
  refine ⟨rfl, rfl, rfl, rfl, rfl, rfl, rfl, rfl, rfl, fun h => ?_, fun h => ?_⟩
  · rw [h]; decide
  · rw [h]; decide

theorem measurements_content_witness :
    stW3.cycles = 1000
    ∧ stW3.instructions = 500
    ∧ (Measurement.ofInteger stW3.cycles ("cycles") []).value.to_string = "1000"
    ∧ (Measurement.ofInteger stW3.instructions ("instructions") []).value.to_string = "500" := by
  have h := measurements_content stW3
  exact ⟨rfl, rfl, h.2.2.2.2.2.2.2.2.2.1 rfl, h.2.2.2.2.2.2.2.2.2.2 rfl⟩

/-- C4: `measurements()` builds the two ratios by floating-point division
with no guard on the denominator.  When the captured cache_references
(respectively branch_instructions) accumulator is zero, the Inf or NaN result
of the division is stored unmodified in the Measurement; in particular, with
the cache-references read having failed (accumulator zero) and cache_misses
captured as 100, the "Cache miss ratio" entry is +Inf, and no failure
propagates out of `stop()`. -/
theorem zero_reference_division_unguarded :
    (∀ st : PMUCounter, st.cache_references = 0 →
        (PMUCounter.measurements st).lookup ("Cache miss ratio")
          = some (Measurement.ofFloating
              (DoubleVal.div (intToDouble st.cache_misses) (intToDouble 0)) ("") [])
        ∧ DoubleVal.isSpecial
            (DoubleVal.div (intToDouble st.cache_misses) (intToDouble 0)) = true)
    ∧ (∀ st : PMUCounter, st.branch_instructions = 0 →
        (PMUCounter.measurements st).lookup ("Branch miss ratio")
          = some (Measurement.ofFloating
              (DoubleVal.div (intToDouble st.branch_misses) (intToDouble 0)) ("") [])
        ∧ DoubleVal.isSpecial
            (DoubleVal.div (intToDouble st.branch_misses) (intToDouble 0)) = true)
    ∧ (∀ st0 : PMUCounter,
        st0.pmu_cache_references.fails = true →
        st0.pmu_cache_misses.fails = false →
        st0.pmu_cache_misses.value = 100 →
        (PMUCounter.measurements (PMUCounter.stop st0)).lookup ("Cache miss ratio")
          = some (Measurement.ofFloating .posInf ("") [])) := by
  refine ⟨fun st h => ⟨?_, div_int_zero_special _⟩,
    fun st h => ⟨?_, div_int_zero_special _⟩, fun st0 h1 h2 h3 => ?_⟩
  · rw [show (PMUCounter.measurements st).lookup ("Cache miss ratio")
        = some (Measurement.ofFloating
            (DoubleVal.div (intToDouble st.cache_misses) (intToDouble st.cache_references))
            ("") []) from rfl, h]
  · rw [show (PMUCounter.measurements st).lookup ("Branch miss ratio")
        = some (Measurement.ofFloating
            (DoubleVal.div (intToDouble st.branch_misses) (intToDouble st.branch_instructions))
            ("") []) from rfl, h]
  · have hcr : (PMUCounter.stop st0).cache_references = 0 := by
      simp [PMUCounter.stop, captureCounter_fails h1]
    have hcm : (PMUCounter.stop st0).cache_misses = 100 := by
      simp [PMUCounter.stop, captureCounter_ok h2, h3]
    rw [show (PMUCounter.measurements (PMUCounter.stop st0)).lookup ("Cache miss ratio")
        = some (Measurement.ofFloating
            (DoubleVal.div (intToDouble (PMUCounter.stop st0).cache_misses)
              (intToDouble (PMUCounter.stop st0).cache_references)) ("") []) from rfl,
      hcr, hcm]
    have hdiv : DoubleVal.div (intToDouble 100) (intToDouble 0) = .posInf := by
      simp only [intToDouble, DoubleVal.div]
      norm_num
    rw [hdiv]

theorem zero_reference_division_unguarded_witness :
    stW4.pmu_cache_references.fails = true
    ∧ stW4.pmu_cache_misses.fails = false
    ∧ stW4.pmu_cache_misses.value = 100
    ∧ (PMUCounter.measurements (PMUCounter.stop stW4)).lookup ("Cache miss ratio")
        = some (Measurement.ofFloating .posInf ("") []) :=
  ⟨rfl, rfl, rfl, zero_reference_division_unguarded.2.2 stW4 rfl rfl rfl⟩

theorem ratSqrt_zero : ratSqrt 0 = 0 := by
  have h1 : (0 : ℚ).num = 0 := rfl
  have h2 : (0 : ℚ).den = 1 := rfl
  rw [ratSqrt, h1, h2]
  norm_num

theorem sqrtD_zero : DoubleVal.sqrtD (DoubleVal.finite 0) = DoubleVal.finite 0 := by
  simp [DoubleVal.sqrtD, ratSqrt_zero]

/-- C5: `relative_standard_deviation(variance, mean)` computes
`100 * sqrt(variance) / mean` in floating point over the tag-selected
operands, with integer-tagged operands both cast to double before the square
root and the division; and it returns 0 whenever the variance is zero and the
mean is nonzero (for either shared tag). -/
theorem relative_standard_deviation_spec (variance mean : Value)
    (h : variance.is_floating_point = mean.is_floating_point) :
    Value.relative_standard_deviation variance mean
      = DoubleVal.div (DoubleVal.mul (.finite 100) (DoubleVal.sqrtD variance.asDouble))
          mean.asDouble
    ∧ (variance.is_floating_point = false → variance.integer = 0 → mean.integer ≠ 0 →
        Value.relative_standard_deviation variance mean = .finite 0)
    ∧ (∀ q : ℚ, variance.is_floating_point = true → variance.floating_point = .finite 0 →
        mean.floating_point = .finite q → q ≠ 0 →
        Value.relative_standard_deviation variance mean = .finite 0) := by
  refine ⟨?_, fun hf h0 hm => ?_, fun q hf h0 hmq hq => ?_⟩
  · cases hv : variance.is_floating_point with
    | false =>
        have hm : mean.is_floating_point = false := by rw [← h, hv]
        simp [Value.relative_standard_deviation, Value.asDouble, hv, hm]
    | true =>
        have hm : mean.is_floating_point = true := by rw [← h, hv]
        simp [Value.relative_standard_deviation, Value.asDouble, hv, hm]
  · have hcast : intToDouble 0 = DoubleVal.finite 0 := by simp [intToDouble]
    have hb : ((mean.integer : ℚ)) ≠ 0 := Int.cast_ne_zero.mpr hm
    simp only [Value.relative_standard_deviation, hf, Bool.false_eq_true, if_false, h0,
      hcast, sqrtD_zero]
    have hmul : DoubleVal.mul (.finite 100) (.finite 0) = DoubleVal.finite 0 := by
      simp [DoubleVal.mul]
    rw [hmul]
    simp [intToDouble, DoubleVal.div, hb]
  · simp only [Value.relative_standard_deviation, hf, if_true, h0, hmq, sqrtD_zero]
    have hmul : DoubleVal.mul (.finite 100) (.finite 0) = DoubleVal.finite 0 := by
      simp [DoubleVal.mul]
    rw [hmul]
    simp [DoubleVal.div, hq]

theorem relative_standard_deviation_spec_witness :
    (Value.ofInt 0).is_floating_point = (Value.ofInt 5).is_floating_point
    ∧ (Value.ofInt 0).integer = 0
    ∧ (Value.ofInt 5).integer ≠ 0
    ∧ Value.relative_standard_deviation (Value.ofInt 0) (Value.ofInt 5) = .finite 0 := by
  have h := relative_standard_deviation_spec (Value.ofInt 0) (Value.ofInt 5) rfl
  exact ⟨rfl, rfl, by decide, h.2.1 rfl rfl (by decide)⟩

/-- C9: a Measurement constructed with an empty raw list has `raw_data` equal
to the one-element sequence holding the rendered string of its value (so
`raw_data` is never empty), for both the floating and the integer
constructor; in particular `Measurement(3.14159, "ms")` has raw_data
`["3.1416"]` (fixed notation, 4 digits after the decimal point). -/
theorem raw_data_default_singleton :
    (∀ (d : DoubleVal) (u : String),
        (Measurement.ofFloating d u []).raw_data
          = [(Measurement.ofFloating d u []).value.to_string]
        ∧ (Measurement.ofFloating d u []).raw_data.length = 1)
    ∧ (∀ (n : ℤ) (u : String),
        (Measurement.ofInteger n u []).raw_data
          = [(Measurement.ofInteger n u []).value.to_string]
        ∧ (Measurement.ofInteger n u []).raw_data.length = 1)
    ∧ (Measurement.ofFloating (.finite (3.14159 : ℚ)) ("ms") []).raw_data = ["3.1416"] := by
  refine ⟨fun d u => ⟨rfl, rfl⟩, fun n u => ⟨rfl, rfl⟩, ?_⟩
  have hfloor : ⌊(3.14159 : ℚ) * 10000⌋ = 31415 :=
    Int.floor_eq_iff.mpr ⟨by norm_num, by norm_num⟩
  have h1 : roundHalfEven ((3.14159 : ℚ) * 10000) = 31416 := by
    simp only [roundHalfEven, hfloor]
    split_ifs with ha hb hc
    · exfalso; norm_num at ha
    · norm_num
    · exfalso; norm_num at hb
    · norm_num
  have h2 : fixedFourChars (3.14159 : ℚ) = ['3', '.', '1', '4', '1', '6'] := by
    simp only [fixedFourChars, h1]
    decide
  simp only [Measurement.ofFloating, Value.to_string, Value.ofFloat, DoubleVal.render]
  rw [h2]
  decide
